import Mathlib

/-!
Shallow embedding of the WEP key-cracker core of the `wepcrack` repository.

Conventions used throughout:
* Rust `u8` values are modelled as `Nat` with explicit `% 256` where the
  source reduces modulo 256; `usize` counters are plain `Nat`.
* `isize` intermediates (used by the source with `rem_euclid`) are `Int`
  with `Int.emod`.
* Fallible operations (Rust `assert!`/`panic!`/`unwrap`, and loops that the
  source can fail to leave) are modelled with `Option`: `none` models an
  abort or divergence of the source.
* `f64` configuration fractions and statistics are modelled over `ℚ`; the
  concrete fractions evaluated in this file are dyadic and small, where
  `f64` arithmetic is exact.
-/

namespace WepCrack

/-- RC4 cipher state (`src/rc4.rs`, `struct RC4Cipher`): the 256-entry
permutation `s` (a list of bytes), and the counters `i` and `j`. -/
structure RC4Cipher where
  s : List Nat
  i : Nat
  j : Nat
deriving DecidableEq, Repr

/-- `RC4Cipher::default`: identity permutation, `i = 0`, `j = 0`. -/
def RC4Cipher.init : RC4Cipher :=
  { s := List.range 256, i := 0, j := 0 }

/-- One iteration of the key-schedule loop body of
`RC4Cipher::do_partial_keyschedule`: update `j`, swap `s[i]` and `s[j]`,
increment `i`. -/
def ksStep (c : RC4Cipher) (kb : Nat) : RC4Cipher :=
  let j := (c.j + c.s.getD c.i 0 + kb) % 256
  let si := c.s.getD c.i 0
  let sj := c.s.getD j 0
  { s := (c.s.set c.i sj).set j si, i := c.i + 1, j := j }

/-- `RC4Cipher::do_partial_keyschedule`: fold the key-schedule step over the
key slice.  The source's `assert!(self.i + key.len() <= 256)` guarantees all
accesses are in bounds; every use in this file satisfies that bound. -/
def RC4Cipher.do_partial_keyschedule (c : RC4Cipher) (key : List Nat) : RC4Cipher :=
  key.foldl ksStep c

/-- The 256-byte key built by the tiling loop of `RC4Cipher::from_key`:
the key repeated cyclically, truncated to 256 bytes.  (For an empty key the
source's tiling loop would never terminate; all keys used here are
non-empty.) -/
def fullKey (key : List Nat) : List Nat :=
  (List.flatten (List.replicate 256 key)).take 256

/-- `RC4Cipher::from_key`: full 256-step key schedule over the tiled key,
then reset `i` and `j` to 0. -/
def RC4Cipher.from_key (key : List Nat) : RC4Cipher :=
  let c := RC4Cipher.init.do_partial_keyschedule (fullKey key)
  { c with i := 0, j := 0 }

/-- `RC4Cipher::gen_keystream_byte`: one PRGA step; returns the successor
state and the emitted keystream byte. -/
def RC4Cipher.gen_keystream_byte (c : RC4Cipher) : RC4Cipher × Nat :=
  let i := (c.i + 1) % 256
  let j := (c.j + c.s.getD i 0) % 256
  let si := c.s.getD i 0
  let sj := c.s.getD j 0
  let s := (c.s.set i sj).set j si
  (⟨s, i, j⟩, s.getD ((s.getD j 0 + s.getD i 0) % 256) 0)

/-- `RC4Cipher::gen_keystream`: emit `n` successive PRGA bytes. -/
def RC4Cipher.gen_keystream (c : RC4Cipher) : Nat → RC4Cipher × List Nat
  | 0 => (c, [])
  | n + 1 =>
    let p := c.gen_keystream_byte
    let q := p.1.gen_keystream n
    (q.1, p.2 :: q.2)

/-- `src/wep.rs`: a WEP key is either a 5-byte (WEP-40) or a 13-byte
(WEP-104) key; the byte lists play the role of the fixed-size arrays. -/
inductive WepKey where
  | wep40 (key : List Nat)
  | wep104 (key : List Nat)
deriving DecidableEq, Repr

/-- `WepKey::LEN_40`. -/
def WepKey.LEN_40 : Nat := 5

/-- `WepKey::LEN_104`. -/
def WepKey.LEN_104 : Nat := 13

/-- `WepKey::create_rc4`: seed an RC4 cipher with the 3-byte IV followed by
the key bytes (both arms of the source build `iv ++ key` and call
`RC4Cipher::from_key`). -/
def WepKey.create_rc4 (k : WepKey) (iv : List Nat) : RC4Cipher :=
  match k with
  | .wep40 key => RC4Cipher.from_key (iv ++ key)
  | .wep104 key => RC4Cipher.from_key (iv ++ key)

/-- `src/keycracker/sample.rs`, `struct KeystreamSample`: a 16-byte
recovered keystream together with the 3-byte IV it was observed under. -/
structure KeystreamSample where
  keystream : List Nat
  iv : List Nat
deriving DecidableEq, Repr

/-- `KeystreamSample::KEYSTREAM_LEN`. -/
def KeystreamSample.KEYSTREAM_LEN : Nat := 16

/-- `src/keycracker/test_sample_buf.rs`, `struct TestSampleBuffer`.
The `f64` threshold fraction is modelled over `ℚ`. -/
structure TestSampleBuffer where
  samples : List KeystreamSample
  buffer_size : Nat
  period_timer : Nat
  sample_period : Nat
  test_threshold_fract : ℚ
deriving DecidableEq, Repr

/-- `TestSampleBuffer::new`. -/
def TestSampleBuffer.new (buffer_size sample_period : Nat) (test_threshold_fract : ℚ) :
    TestSampleBuffer :=
  { samples := [], buffer_size, period_timer := 0, sample_period, test_threshold_fract }

/-- `TestSampleBuffer::num_samples`. -/
def TestSampleBuffer.num_samples (b : TestSampleBuffer) : Nat :=
  b.samples.length

/-- `TestSampleBuffer::is_ready` (invoked as `is_full()` at its use site in
the cracker): the buffer holds at least `buffer_size` samples. -/
def TestSampleBuffer.is_ready (b : TestSampleBuffer) : Bool :=
  b.buffer_size ≤ b.samples.length

/-- The eviction loop of `TestSampleBuffer::accept_sample`:
`while self.samples.len() >= self.buffer_size { self.samples.pop_front(); }`.
`none` models divergence: with `cap = 0` the source loop never terminates
(popping an empty `VecDeque` is a no-op, and `0 >= 0` stays true). -/
def evictLoop (cap : Nat) : List KeystreamSample → Option (List KeystreamSample)
  | [] => if cap ≤ 0 then none else some []
  | x :: rest =>
    if cap ≤ (x :: rest).length then evictLoop cap rest else some (x :: rest)

/-- `TestSampleBuffer::accept_sample`: increment the period counter; if it
has not yet reached the period, ignore the sample, otherwise reset the
counter, evict old samples down to below capacity and append the sample. -/
def TestSampleBuffer.accept_sample (b : TestSampleBuffer) (sample : KeystreamSample) :
    Option TestSampleBuffer :=
  let timer := b.period_timer + 1
  if timer < b.sample_period then
    some { b with period_timer := timer }
  else
    match evictLoop b.buffer_size b.samples with
    | none => none
    | some q => some { b with period_timer := 0, samples := q ++ [sample] }

/-- Feed a sequence of samples into the buffer in order (the repeated
`accept_sample` calls performed by the cracker's collection loop). -/
def TestSampleBuffer.accept_all (b : TestSampleBuffer) :
    List KeystreamSample → Option TestSampleBuffer
  | [] => some b
  | x :: xs =>
    match b.accept_sample x with
    | none => none
    | some b' => b'.accept_all xs

/-- The scan loop of `TestSampleBuffer::test_wep_key`: count mismatching
samples, short-circuiting to `false` as soon as the running count reaches
the negative threshold. -/
def testLoop (key : WepKey) (negThreshold : Nat) : Nat → List KeystreamSample → Bool
  | _, [] => true
  | negSamples, s :: rest =>
    if ((key.create_rc4 s.iv).gen_keystream 16).2 = s.keystream then
      testLoop key negThreshold negSamples rest
    else if negThreshold ≤ negSamples + 1 then false
    else testLoop key negThreshold (negSamples + 1) rest

/-- The exact ceiling of `n · t` computed over the rational's numerator and
denominator (`(n as f64 * t).ceil()` of the source, which is exact for the
small dyadic fractions this file evaluates); `ratCeilMul_eq` below proves
it equal to `⌈(n : ℚ) * t⌉`. -/
def ratCeilMul (n : Nat) (t : ℚ) : Int :=
  -((-((n : Int) * t.num)).fdiv (t.den : Int))

/-- `TestSampleBuffer::test_wep_key`: compute the negative threshold
`len - ceil(len * threshold_fraction)` and scan the retained samples.
`Int.toNat` models the saturating `as usize` cast of the `f64` ceiling. -/
def TestSampleBuffer.test_wep_key (b : TestSampleBuffer) (key : WepKey) : Bool :=
  let threshold := (ratCeilMul b.samples.length b.test_threshold_fract).toNat
  testLoop key (b.samples.length - threshold) 0 b.samples

/-- Whether a retained sample's stored keystream differs from the keystream
re-derived from `key` over the sample's IV (the mismatch test inside
`TestSampleBuffer::test_wep_key`). -/
def keystreamMismatch (key : WepKey) (s : KeystreamSample) : Bool :=
  if ((key.create_rc4 s.iv).gen_keystream 16).2 = s.keystream then false else true

/-- Number of retained samples whose re-derived keystream mismatches. -/
def TestSampleBuffer.mismatchCount (b : TestSampleBuffer) (key : WepKey) : Nat :=
  b.samples.countP (keystreamMismatch key)

/-- A concrete all-zero WEP-104 key. -/
def keyC2 : WepKey := WepKey.wep104 (List.replicate 13 0)

/-- A concrete IV. -/
def ivC2 : List Nat := [0, 0, 0]

/-- A sample whose stored keystream is exactly the RC4 keystream of `keyC2`
under `ivC2`, i.e. a sample that matches `keyC2`. -/
def goodSampleC2 : KeystreamSample :=
  { keystream := ((keyC2.create_rc4 ivC2).gen_keystream 16).2, iv := ivC2 }

/-- A buffer holding one matching sample, with threshold fraction 1
(both 1 and the products/ceilings taken of it are exact in `f64`). -/
def bufC2 : TestSampleBuffer :=
  { samples := [goodSampleC2], buffer_size := 1, period_timer := 0,
    sample_period := 1, test_threshold_fract := 1 }

/-- An empty test buffer (capacity 4, period 2, threshold 1/2). -/
def bufC10 : TestSampleBuffer := TestSampleBuffer.new 4 2 (1/2)

/-- A concrete WEP-40 key. -/
def keyC10 : WepKey := WepKey.wep40 [1, 2, 3, 4, 5]

/-- `src/keycracker/key_byte.rs`, `enum KeyBytePrediction`: a key byte is
either `Normal` with a candidate sigma sum, or `Strong`. -/
inductive KeyBytePrediction where
  | normal (sigma : Nat)
  | strong
deriving DecidableEq, Repr

/-- Rust's `usize::MAX`, the placeholder stored in `cur_l_idxs` at
non-strong positions by `KeyTester::new`. -/
def usizeMax : Nat := 2 ^ 64 - 1

/-- `src/keycracker/key_tester.rs`, `struct KeyTester`. -/
structure KeyTester where
  num_keys : Nat
  cur_key_idx : Nat
  cur_l_idxs : List Nat
  key_predictions : List KeyBytePrediction
  maybe_wep40 : Bool
deriving DecidableEq, Repr

/-- The `num_keys` accumulation loop of `KeyTester::new` (`num_keys *= idx`
for every index classified `Strong`), written as a recursion carrying the
running index; multiplication order is the only difference from the
source's fold, and multiplication is commutative. -/
def numKeysFrom (idx : Nat) : List KeyBytePrediction → Nat
  | [] => 1
  | p :: rest =>
    (if p = KeyBytePrediction.strong then idx else 1) * numKeysFrom (idx + 1) rest

/-- `KeyTester::new`: compute `num_keys`, assert `num_keys >= 1` (`none`
models the `assert!` aborting), seed the l-indices with 1 at strong
positions and `usize::MAX` elsewhere, and precompute `maybe_wep40`
(all predictions at positions `LEN_40..` are `Strong`). -/
def KeyTester.new (preds : List KeyBytePrediction) : Option KeyTester :=
  let nk := numKeysFrom 0 preds
  if 1 ≤ nk then
    some
      { num_keys := nk
        cur_key_idx := 0
        cur_l_idxs := preds.map fun p => if p = KeyBytePrediction.strong then 1 else usizeMax
        key_predictions := preds
        maybe_wep40 := (preds.drop WepKey.LEN_40).all fun p => p = KeyBytePrediction.strong }
  else none

/-- `KeyTester::is_at_end`: `cur_key_idx >= num_keys`. -/
def KeyTester.is_at_end (t : KeyTester) : Bool :=
  t.num_keys ≤ t.cur_key_idx

/-- The odometer loop of `KeyTester::advance_to_next_key`, iterating over
positions `i` in `0..13` (`cnt` is the number of positions still to scan,
`13 - i`).  `some t'` models the loop body's `return true`; `none` models
falling out of the loop into `panic!("unable to advance to next key")`. -/
def advanceLoop : KeyTester → Nat → Nat → Option KeyTester
  | _, _, 0 => none
  | t, i, cnt + 1 =>
    if t.key_predictions.getD i (KeyBytePrediction.normal 0) ≠ KeyBytePrediction.strong then
      advanceLoop t (i + 1) cnt
    else
      let t1 := if WepKey.LEN_40 ≤ i then { t with maybe_wep40 := false } else t
      let l := t1.cur_l_idxs.getD i 0 + 1
      if i < l then
        advanceLoop { t1 with cur_l_idxs := t1.cur_l_idxs.set i 1 } (i + 1) cnt
      else
        some { t1 with cur_l_idxs := t1.cur_l_idxs.set i l, cur_key_idx := t1.cur_key_idx + 1 }

/-- `KeyTester::advance_to_next_key`: if already at the end return `false`,
otherwise run the odometer loop over all 13 positions.  The returned pair
is the mutated tester and the boolean result; `none` models the
`panic!("unable to advance to next key")` reached when the loop finds no
position to advance. -/
def KeyTester.advance_to_next_key (t : KeyTester) : Option (KeyTester × Bool) :=
  if t.is_at_end then some (t, false)
  else (advanceLoop t 0 WepKey.LEN_104).map fun t' => (t', true)

/-- The key-reconstruction loop of `KeyTester::current_key`: `i` counts up
to 13 (`cnt = 13 - i`), `key` is the prefix built so far and `prevSigma`
the previous sigma sum.  `inv_rk` is summed over `k ∈ [l_i, i)` in `isize`
arithmetic (`Int` here), and both reductions use `rem_euclid(256)`. -/
def buildKeyGo (preds : List KeyBytePrediction) (ls : List Nat) :
    Nat → Nat → List Nat → Nat → List Nat
  | _, 0, key, _ => key
  | i, cnt + 1, key, prevSigma =>
    let sigma : Nat :=
      match preds.getD i (KeyBytePrediction.normal 0) with
      | .normal s => s
      | .strong =>
        let li := ls.getD i 0
        let invRk : Int :=
          ((List.range' li (i - li)).map fun k => (key.getD k 0 : Int) + 3 + (k : Int)).sum
            + 3 + (i : Int)
        (((prevSigma : Int) - invRk).emod 256).toNat
    let kb := (((sigma : Int) - (prevSigma : Int)).emod 256).toNat
    buildKeyGo preds ls (i + 1) cnt (key ++ [kb]) sigma

/-- `KeyTester::current_key`: panics (`none`) when the tester is at its end
state, otherwise reconstructs the current 13-byte candidate key. -/
def KeyTester.current_key (t : KeyTester) : Option (List Nat) :=
  if t.is_at_end then none
  else some (buildKeyGo t.key_predictions t.cur_l_idxs 0 WepKey.LEN_104 [] 0)

/-- `KeyTester::test_current_key`: test the current candidate as a WEP-104
key and, when `maybe_wep40` holds, also its 5-byte prefix as a WEP-40 key.
The outer `Option` models the panic inside `current_key`; the inner one is
the source's `Option<WepKey>` result. -/
def KeyTester.test_current_key (t : KeyTester) (buf : TestSampleBuffer) :
    Option (Option WepKey) :=
  match t.current_key with
  | none => none
  | some key =>
    let key104 := WepKey.wep104 key
    if buf.test_wep_key key104 then some (some key104)
    else if t.maybe_wep40 then
      let key40 := WepKey.wep40 (key.take WepKey.LEN_40)
      if buf.test_wep_key key40 then some (some key40) else some none
    else some none

/-- The predictions used for the C1 trace and the tester-exhaustion
scenario: one strong byte at position 3, all other bytes normal, so that
`num_keys = 3`. -/
def predsC1 : List KeyBytePrediction :=
  [.normal 10, .normal 20, .normal 30, .strong, .normal 40, .normal 50, .normal 60,
   .normal 70, .normal 80, .normal 90, .normal 100, .normal 110, .normal 120]

/-- The tester `KeyTester::new(predsC1)` constructs. -/
def testerC1 : KeyTester :=
  { num_keys := 3
    cur_key_idx := 0
    cur_l_idxs := [usizeMax, usizeMax, usizeMax, 1, usizeMax, usizeMax, usizeMax,
                   usizeMax, usizeMax, usizeMax, usizeMax, usizeMax, usizeMax]
    key_predictions := predsC1
    maybe_wep40 := false }

/-- `testerC1` after one successful advance (`l_3 = 2`, key index 1). -/
def testerC1a : KeyTester :=
  { testerC1 with
    cur_l_idxs := [usizeMax, usizeMax, usizeMax, 2, usizeMax, usizeMax, usizeMax,
                   usizeMax, usizeMax, usizeMax, usizeMax, usizeMax, usizeMax]
    cur_key_idx := 1 }

/-- `testerC1` after two successful advances (`l_3 = 3`, key index 2). -/
def testerC1b : KeyTester :=
  { testerC1 with
    cur_l_idxs := [usizeMax, usizeMax, usizeMax, 3, usizeMax, usizeMax, usizeMax,
                   usizeMax, usizeMax, usizeMax, usizeMax, usizeMax, usizeMax]
    cur_key_idx := 2 }

/-- A prediction array whose position 0 is classified `Strong`. -/
def predsC3 : List KeyBytePrediction :=
  KeyBytePrediction.strong :: List.replicate 12 (KeyBytePrediction.normal 0)

/-- An all-normal prediction array (no strong byte). -/
def predsC3w : List KeyBytePrediction :=
  List.replicate 13 (KeyBytePrediction.normal 7)

/-- `src/keycracker/predictor.rs`, `struct KeyPredictor`: the sample count
and the 13×256 sigma-vote matrix.  (The source's `OnceCell` prediction-info
cache is a pure function of these two fields and is modelled by recomputing
`key_byte_infos` on demand.) -/
structure KeyPredictor where
  num_samples : Nat
  sigma_votes : List (List Nat)
deriving DecidableEq, Repr

/-- `KeyPredictor::new`: zero samples, all-zero vote matrix. -/
def KeyPredictor.new : KeyPredictor :=
  { num_samples := 0, sigma_votes := List.replicate 13 (List.replicate 256 0) }

/-- The inverse-permutation pass of `KeyPredictor::accept_sample`:
`sinv_3[s_3[i]] = i` for `i` in `0..256`. -/
def sinvOf (s3 : List Nat) : List Nat :=
  (List.range 256).foldl (fun acc i => acc.set (s3.getD i 0) i) (List.replicate 256 0)

/-- The sigma loop of `KeyPredictor::accept_sample`: for each key-byte
index `i` in `0..13` (`cnt = 13 - i`), accumulate `s3_sum`, compute the
sigma vote index
`(sinv_3[(3 + i - keystream[2+i]) mod 256] - (j_3 + s3_sum)) mod 256`
(`isize` arithmetic with `rem_euclid`), and collect the indices. -/
def sigmaVoteIdxsGo (s3 sinv3 ks : List Nat) (j3 : Nat) : Nat → Nat → Nat → List Nat
  | 0, _, _ => []
  | cnt + 1, i, s3sum =>
    let s3sum' := s3sum + s3.getD (3 + i) 0
    let idx := ((3 + (i : Int) - (ks.getD (2 + i) 0 : Int)).emod 256).toNat
    let v := (((sinv3.getD idx 0 : Int) - ((j3 : Int) + (s3sum' : Int))).emod 256).toNat
    v :: sigmaVoteIdxsGo s3 sinv3 ks j3 cnt (i + 1) s3sum'

/-- The 13 sigma vote indices a sample casts (one per key-byte index). -/
def sigmaVoteIdxs (sample : KeystreamSample) : List Nat :=
  let c := RC4Cipher.init.do_partial_keyschedule sample.iv
  sigmaVoteIdxsGo c.s (sinvOf c.s) sample.keystream c.j WepKey.LEN_104 0 0

/-- `KeyPredictor::accept_sample`: run the partial key schedule over the
IV, invert the permutation, compute the 13 sigma vote indices and increment
the corresponding cell of each row (`sigma_votes[i][sigma_i] += 1`), then
increment the sample counter. -/
def KeyPredictor.accept_sample (p : KeyPredictor) (sample : KeystreamSample) : KeyPredictor :=
  { num_samples := p.num_samples + 1
    sigma_votes :=
      List.zipWith (fun row sg => row.set sg (row.getD sg 0 + 1)) p.sigma_votes
        (sigmaVoteIdxs sample) }

/-- Feed a sequence of samples to the predictor in order. -/
def foldPredictor (samples : List KeystreamSample) : KeyPredictor :=
  samples.foldl KeyPredictor.accept_sample KeyPredictor.new

/-- The sum of row `i` of the sigma-vote matrix. -/
def KeyPredictor.rowSum (p : KeyPredictor) (i : Nat) : Nat :=
  (p.sigma_votes.getD i []).sum

/-- `p_nopick_i` from `KeyBytePredictionInfo::calc_p_correct`
(`src/keycracker/key_byte.rs`); `f64` modelled over `ℚ`. -/
def p_nopick_i (opts : Int) : ℚ := 1 - (opts : ℚ) / 256

/-- `p_nopick`. -/
def p_nopick : ℚ := p_nopick_i 1

/-- `p_nopick_ks = p_nopick.powi(254)`. -/
def p_nopick_ks : ℚ := p_nopick ^ (254 : Nat)

/-- The `calc_p_correct` loop: `cnt = 13 - i` positions remain, `accum` is
the running `q_i_accum`. -/
def pCorrectGo : Nat → Nat → ℚ → List ℚ
  | 0, _, _ => []
  | cnt + 1, i, accum =>
    (accum * p_nopick_i (i : Int) * p_nopick_ks * 2 / 256
        + (1 - accum * p_nopick_i (i : Int) * p_nopick_ks) * 254 / (256 * 255))
      :: pCorrectGo cnt (i + 1) (accum * (p_nopick * p_nopick_i ((i : Int) + 1)))

/-- `KeyBytePredictionInfo::calc_p_correct`: the 13-entry `p_correct`
table. -/
def calc_p_correct : List ℚ := pCorrectGo WepKey.LEN_104 0 1

/-- The candidate-sigma search of `from_sigma_votes`:
`iter().enumerate().max_by(v1.cmp(v2))`, which returns the LAST index
attaining the maximum vote count.  The fold state is
`(next index, best index, best value)`. -/
def argmaxLast (l : List Nat) : Nat :=
  (l.foldl
      (fun (acc : Nat × Nat × Nat) v =>
        if acc.2.2 ≤ v then (acc.1 + 1, acc.1, v) else (acc.1 + 1, acc.2.1, acc.2.2))
      (0, 0, 0)).2.1

/-- `src/keycracker/key_byte.rs`, `struct KeyBytePredictionInfo`; the `f64`
statistics are modelled over `ℚ` (exact arithmetic; the branch structure of
the cracker does not depend on rounding). -/
structure KeyBytePredictionInfo where
  candidate_sigma : Nat
  p_candidate : ℚ
  p_correct : ℚ
  p_equal : ℚ
  err_strong : ℚ
  err_normal : ℚ
deriving DecidableEq, Repr

/-- `KeyBytePredictionInfo::from_sigma_votes`: candidate sigma, the
residuals `err_strong` / `err_normal` (summed over the 256 sigma values by
a fold carrying `(sigma index, err_strong, err_normal)`), and the derived
probabilities.  Division by a zero `total_votes` yields 0 in `ℚ` where
`f64` would yield NaN; the cracker only inspects these values with
`total_votes ≥ 1`. -/
def KeyBytePredictionInfo.from_sigma_votes (key_idx : Nat) (votes : List Nat)
    (total_votes : Nat) : KeyBytePredictionInfo :=
  let candidate_sigma := argmaxLast votes
  let p_equal : ℚ := 1 / 256
  let p_correct := calc_p_correct.getD key_idx 0
  let p_wrong := (1 - p_correct) / 255
  let errs :=
    votes.foldl
      (fun (acc : Nat × ℚ × ℚ) v =>
        (acc.1 + 1,
         acc.2.1 + ((v : ℚ) / (total_votes : ℚ) - p_equal)
            * ((v : ℚ) / (total_votes : ℚ) - p_equal),
         acc.2.2 + ((v : ℚ) / (total_votes : ℚ)
              - (if acc.1 = candidate_sigma then p_correct else p_wrong))
            * ((v : ℚ) / (total_votes : ℚ)
              - (if acc.1 = candidate_sigma then p_correct else p_wrong))))
      (0, 0, 0)
  { candidate_sigma
    p_candidate := (votes.getD candidate_sigma 0 : ℚ) / (total_votes : ℚ)
    p_correct
    p_equal
    err_strong := errs.2.1
    err_normal := errs.2.2 }

/-- `KeyBytePredictionInfo::prediction`: `Normal{candidate_sigma}` when
`err_normal < err_strong`, else `Strong`. -/
def KeyBytePredictionInfo.prediction (info : KeyBytePredictionInfo) : KeyBytePrediction :=
  if info.err_normal < info.err_strong then KeyBytePrediction.normal info.candidate_sigma
  else KeyBytePrediction.strong

/-- `KeyBytePredictionInfo::prediction_score`:
`|err_strong - err_normal| / min(err_normal, err_strong)`. -/
def KeyBytePredictionInfo.prediction_score (info : KeyBytePredictionInfo) : ℚ :=
  if info.err_normal < info.err_strong then
    (info.err_strong - info.err_normal) / info.err_normal
  else (info.err_normal - info.err_strong) / info.err_strong

/-- `KeyPredictor::key_byte_infos`: the per-byte infos derived from the
current vote matrix (the source caches them in a `OnceCell` invalidated on
every sample; the cached value is always this pure function of the
predictor state). -/
def KeyPredictor.key_byte_infos (p : KeyPredictor) : List KeyBytePredictionInfo :=
  (List.range WepKey.LEN_104).map fun idx =>
    KeyBytePredictionInfo.from_sigma_votes idx (p.sigma_votes.getD idx []) p.num_samples

/-- `src/ui/keycracker/cracker.rs`, `enum KeyCrackerPhase`. -/
inductive KeyCrackerPhase where
  | sampleCollection
  | candidateKeyTesting
  | finishedSuccess
  | finishedFailure
deriving DecidableEq, Repr

/-- `struct KeyCrackerSettings`; the `f64` thresholds are modelled over
`ℚ`. -/
structure KeyCrackerSettings where
  key_predictor_normal_threshold : ℚ
  key_predictor_strong_threshold : ℚ
  num_test_samples : Nat
  test_sample_period : Nat
  test_sample_threshold : ℚ
deriving DecidableEq, Repr

/-- `struct KeyCracker` (the worker-owned state; the sample provider and
the cancellation flag are external and enter `do_work` as its per-step
input, see `KeyCracker.doWork`). -/
structure KeyCracker where
  phase : KeyCrackerPhase
  delay_timer : Nat
  settings : KeyCrackerSettings
  key_predictor : KeyPredictor
  test_sample_buf : TestSampleBuffer
  key_tester : Option KeyTester
  cracked_key : Option WepKey
deriving DecidableEq, Repr

/-- `READY_CHECK_PERIOD` from `KeyCracker::do_work`. -/
def READY_CHECK_PERIOD : Nat := 2048

/-- The readiness predicate checked every `READY_CHECK_PERIOD` steps: the
test buffer is full and every key byte's prediction score reaches its
(normal or strong) threshold. -/
def KeyCracker.ready (c : KeyCracker) : Bool :=
  c.test_sample_buf.is_ready
    && c.key_predictor.key_byte_infos.all fun info =>
        decide
          ((match info.prediction with
            | KeyBytePrediction.normal _ => c.settings.key_predictor_normal_threshold
            | KeyBytePrediction.strong => c.settings.key_predictor_strong_threshold)
            ≤ info.prediction_score)

/-- `KeyCracker::do_work`, one step.  `providerResult` is what the external
sample provider returned for this step (`None` models "no sample
available").  The result `none` models a panic inside the step (the
`unwrap` of `key_tester`, the panic in `current_key`, the
`panic!("unable to advance to next key")`, or a diverging buffer
eviction); `some c'` is the mutated cracker. -/
def KeyCracker.doWork (c : KeyCracker) (providerResult : Option KeystreamSample) :
    Option KeyCracker :=
  match c.phase with
  | KeyCrackerPhase.sampleCollection =>
    match providerResult with
    | none => some c
    | some sample =>
      let pred := c.key_predictor.accept_sample sample
      match c.test_sample_buf.accept_sample sample with
      | none => none
      | some buf =>
        if READY_CHECK_PERIOD ≤ c.delay_timer + 1 then
          let c' := { c with key_predictor := pred, test_sample_buf := buf, delay_timer := 0 }
          if c'.ready then
            match KeyTester.new (c'.key_predictor.key_byte_infos.map
                KeyBytePredictionInfo.prediction) with
            | none => none
            | some t =>
              some { c' with
                      phase := KeyCrackerPhase.candidateKeyTesting
                      key_tester := some t }
          else some c'
        else
          some { c with
                  key_predictor := pred
                  test_sample_buf := buf
                  delay_timer := c.delay_timer + 1 }
  | KeyCrackerPhase.candidateKeyTesting =>
    match c.key_tester with
    | none => none
    | some tester =>
      match tester.test_current_key c.test_sample_buf with
      | none => none
      | some (some key) =>
        some { c with phase := KeyCrackerPhase.finishedSuccess, cracked_key := some key }
      | some none =>
        match tester.advance_to_next_key with
        | none => none
        | some (t', true) => some { c with key_tester := some t' }
        | some (t', false) =>
          some { c with phase := KeyCrackerPhase.finishedFailure, key_tester := some t' }
  | KeyCrackerPhase.finishedSuccess => some c
  | KeyCrackerPhase.finishedFailure => some c

/-- The phase order of the claim: collection < testing < terminal. -/
def phaseRank : KeyCrackerPhase → Nat
  | KeyCrackerPhase.sampleCollection => 0
  | KeyCrackerPhase.candidateKeyTesting => 1
  | KeyCrackerPhase.finishedSuccess => 2
  | KeyCrackerPhase.finishedFailure => 2

/-- Concrete settings for the witness states. -/
def settingsW : KeyCrackerSettings :=
  { key_predictor_normal_threshold := 1/2
    key_predictor_strong_threshold := 1/4
    num_test_samples := 1
    test_sample_period := 1
    test_sample_threshold := 1 }

/-- A cracker in the terminal `FinishedSuccess` phase. -/
def crackerFS : KeyCracker :=
  { phase := KeyCrackerPhase.finishedSuccess
    delay_timer := 0
    settings := settingsW
    key_predictor := KeyPredictor.new
    test_sample_buf := TestSampleBuffer.new 1 1 1
    key_tester := none
    cracked_key := none }

/-- A cracker in the `CandidateKeyTesting` phase with an empty test buffer
(so the first candidate validates immediately). -/
def crackerCKT : KeyCracker :=
  { crackerFS with
    phase := KeyCrackerPhase.candidateKeyTesting
    key_tester := some testerC1 }

/-- The state `crackerCKT` steps to: the empty test buffer accepts the
first candidate key, so the phase becomes `FinishedSuccess` with the
reconstructed key stored. -/
def crackerCKTres : KeyCracker :=
  { crackerCKT with
    phase := KeyCrackerPhase.finishedSuccess
    cracked_key :=
      some (WepKey.wep104 (buildKeyGo predsC1 testerC1.cur_l_idxs 0 WepKey.LEN_104 [] 0)) }

/-- A sample whose keystream is all zero (it matches no candidate tested
below). -/
def badSampleC1 : KeystreamSample :=
  { keystream := List.replicate 16 0, iv := [0, 0, 0] }

/-- A buffer holding one sample that mismatches, with threshold 1: every
key test fails. -/
def bufC1 : TestSampleBuffer :=
  { samples := [badSampleC1], buffer_size := 1, period_timer := 0,
    sample_period := 1, test_threshold_fract := 1 }

/-- A cracker in `CandidateKeyTesting` holding the exhausted-but-one tester
`testerC1b` and a buffer that rejects every key: the next `do_work` step
must advance past the last candidate. -/
def crackerC1 : KeyCracker :=
  { crackerFS with
    phase := KeyCrackerPhase.candidateKeyTesting
    test_sample_buf := bufC1
    key_tester := some testerC1b }

/-- The samples the period counter admits, starting from counter value `r`:
the counter is incremented per sample (`r + 1 < p` keeps dropping), and on
reaching the period the sample is kept and the counter resets — the
selection performed by repeated `accept_sample` calls. -/
def selEvery (p : Nat) : Nat → List KeystreamSample → List KeystreamSample
  | _, [] => []
  | r, x :: xs => if r + 1 < p then selEvery p (r + 1) xs else x :: selEvery p 0 xs

/-- The suffix of the `n` most recently appended elements (all of them when
fewer exist): what survives FIFO eviction in a buffer of capacity `n`. -/
def lastN (n : Nat) (l : List KeystreamSample) : List KeystreamSample :=
  l.drop (l.length - n)

end WepCrack

open WepCrack

/-- `ratCeilMul` computes the ceiling of the rational product `n · t`. -/
theorem ratCeilMul_eq (n : Nat) (t : ℚ) : ratCeilMul n t = ⌈(n : ℚ) * t⌉ := by
  rw [ratCeilMul]
  have hpos : (0 : Int) ≤ (t.den : Int) := by positivity
  rw [Int.fdiv_eq_ediv _ hpos, ← Rat.floor_intCast_div_natCast]
  have hq : ((-((n : Int) * t.num) : ℤ) : ℚ) / ((t.den : ℕ) : ℚ) = -((n : ℚ) * t) := by
    conv_rhs => rw [← Rat.num_div_den t]
    push_cast
    ring
  rw [hq, Int.floor_neg, neg_neg]

/-- The short-circuiting scan of `test_wep_key` accepts exactly when either
no retained sample mismatches, or the accumulator plus the number of
mismatching samples stays strictly below the negative threshold. -/
theorem testLoop_true_iff (key : WepKey) (nt : Nat) (ss : List KeystreamSample) :
    ∀ acc : Nat,
      testLoop key nt acc ss = true ↔
        (ss.countP (keystreamMismatch key) = 0 ∨
          acc + ss.countP (keystreamMismatch key) < nt) := by
  induction ss with
  | nil => intro acc; simp [testLoop]
  | cons s rest ih =>
    intro acc
    by_cases h : ((key.create_rc4 s.iv).gen_keystream 16).2 = s.keystream
    · rw [testLoop, if_pos h, ih acc]
      simp [List.countP_cons, keystreamMismatch, h]
    · rw [testLoop, if_neg h]
      by_cases hnt : nt ≤ acc + 1
      · rw [if_pos hnt]
        simp only [List.countP_cons, keystreamMismatch, Bool.false_eq_true, false_iff]
        simp only [if_neg h, if_true]
        omega
      · rw [if_neg hnt, ih (acc + 1)]
        simp only [List.countP_cons, keystreamMismatch]
        simp only [if_neg h, if_true]
        omega

/-- C2 (amended): `test_wep_key(k)` returns `true` iff either no retained
sample mismatches, or the number of mismatching samples is strictly less
than `len - ⌈len · t⌉` (the integer negative threshold the code computes);
equivalently, strictly more than `⌈len · t⌉` samples match.  The claim's
bound `len · (1 − t)` and its "at least `⌈len · t⌉` matches" reading both
differ from the code by the rounding of the threshold (see the
counterexample). -/
theorem C2_test_wep_key_amended (b : TestSampleBuffer) (key : WepKey) :
    b.test_wep_key key = true ↔
      (b.mismatchCount key = 0 ∨
        b.mismatchCount key <
          b.samples.length - (Int.ceil ((b.samples.length : ℚ) * b.test_threshold_fract)).toNat) := by
  rw [← ratCeilMul_eq]
  simpa [TestSampleBuffer.test_wep_key, TestSampleBuffer.mismatchCount] using
    testLoop_true_iff key
      (b.samples.length - (ratCeilMul b.samples.length b.test_threshold_fract).toNat)
      b.samples 0

set_option maxRecDepth 100000 in
set_option maxHeartbeats 4000000 in
/-- C2 (counterexample): a buffer holding exactly one retained sample that
matches the key, with threshold fraction `t = 1`: the code accepts
(`test_wep_key` returns `true`), yet the number of mismatching samples (0)
is not strictly less than `len · (1 − t) = 0`, refuting the claimed
equivalence at this input. -/
theorem C2_counterexample :
    bufC2.test_wep_key keyC2 = true
    ∧ ¬ ((bufC2.mismatchCount keyC2 : ℚ) <
          (bufC2.samples.length : ℚ) * (1 - bufC2.test_threshold_fract)) := by
  have hmc : bufC2.mismatchCount keyC2 = 0 := by rfl
  refine ⟨by rfl, ?_⟩
  rw [hmc]
  norm_num [bufC2]

/-- C10: a buffer with an empty retained-sample queue validates every
candidate WEP key: `test_wep_key` returns `true`. -/
theorem C10_empty_buffer_accepts (b : TestSampleBuffer) (key : WepKey)
    (h : b.samples = []) : b.test_wep_key key = true := by
  simp [TestSampleBuffer.test_wep_key, h, testLoop]

/-- C10 (witness): the freshly constructed buffer `bufC10` has an empty
queue and accepts the concrete key `keyC10`. -/
theorem C10_empty_buffer_accepts_witness :
    bufC10.samples = [] ∧ bufC10.test_wep_key keyC10 = true :=
  ⟨rfl, C10_empty_buffer_accepts bufC10 keyC10 rfl⟩

/-- The `num_keys` loop computes the product, over all positions classified
`Strong`, of the position's index offset by the starting index. -/
theorem numKeysFrom_eq_prod (preds : List KeyBytePrediction) :
    ∀ k : Nat,
      numKeysFrom k preds
        = ∏ i ∈ Finset.range preds.length,
            (if preds.getD i (KeyBytePrediction.normal 0) = KeyBytePrediction.strong then
              k + i else 1) := by
  induction preds with
  | nil => intro k; simp [numKeysFrom]
  | cons p rest ih =>
    intro k
    rw [numKeysFrom, ih (k + 1), List.length_cons, Finset.prod_range_succ']
    simp only [List.getD_cons_succ, List.getD_cons_zero, Nat.add_zero]
    rw [Nat.mul_comm]
    congr 1
    refine Finset.prod_congr rfl fun i _ => ?_
    congr 1
    omega

/-- Every factor of the strong-position product is positive as soon as
position 0 is not classified `Strong`. -/
theorem one_le_strong_prod (preds : List KeyBytePrediction)
    (h0 : preds.getD 0 (KeyBytePrediction.normal 0) ≠ KeyBytePrediction.strong) (n : Nat) :
    1 ≤ ∏ i ∈ Finset.range n,
        (if preds.getD i (KeyBytePrediction.normal 0) = KeyBytePrediction.strong then
          i else 1) := by
  refine Finset.one_le_prod' fun i _ => ?_
  by_cases hs : preds.getD i (KeyBytePrediction.normal 0) = KeyBytePrediction.strong
  · have hi : i ≠ 0 := fun h => h0 (h ▸ hs)
    rw [if_pos hs]
    omega
  · rw [if_neg hs]

/-- C3 (counterexample): a predictions array whose position 0 is classified
`Strong` makes `num_keys` zero (`num_keys *= 0`), so the source's
`assert!(num_keys >= 1)` fails and `KeyTester::new` aborts instead of
returning. -/
theorem C3_counterexample : KeyTester.new predsC3 = none := by rfl

/-- C3 (amended): for every predictions array of 13 entries whose position
0 is NOT classified `Strong`, `KeyTester::new` returns a tester with
`num_keys = ∏_(i strong) i` (empty product 1) and `num_keys ≥ 1`; when
position 0 is `Strong` the product is 0 and the constructor aborts on its
`assert!(num_keys >= 1)`. -/
theorem C3_new_num_keys_amended (preds : List KeyBytePrediction)
    (hlen : preds.length = 13)
    (h0 : preds.getD 0 (KeyBytePrediction.normal 0) ≠ KeyBytePrediction.strong) :
    (KeyTester.new preds).map KeyTester.num_keys
        = some (∏ i ∈ Finset.range 13,
            (if preds.getD i (KeyBytePrediction.normal 0) = KeyBytePrediction.strong then
              i else 1))
    ∧ 1 ≤ ∏ i ∈ Finset.range 13,
        (if preds.getD i (KeyBytePrediction.normal 0) = KeyBytePrediction.strong then
          i else 1) := by
  have hprod : numKeysFrom 0 preds
      = ∏ i ∈ Finset.range 13,
          (if preds.getD i (KeyBytePrediction.normal 0) = KeyBytePrediction.strong then
            i else 1) := by
    rw [numKeysFrom_eq_prod preds 0, hlen]
    exact Finset.prod_congr rfl fun i _ => by rw [Nat.zero_add]
  have hge := one_le_strong_prod preds h0 13
  refine ⟨?_, hge⟩
  rw [KeyTester.new]
  simp only [hprod]
  rw [if_pos hge]
  rfl

/-- The odometer loop of `advance_to_next_key` never modifies the frozen
prediction snapshot or the key count. -/
theorem advanceLoop_frame :
    ∀ (cnt : Nat) (t : KeyTester) (i : Nat) (t' : KeyTester),
      advanceLoop t i cnt = some t' →
      t'.key_predictions = t.key_predictions ∧ t'.num_keys = t.num_keys := by
  intro cnt
  induction cnt with
  | zero => intro t i t' h; exact absurd h (by simp [advanceLoop])
  | succ n ih =>
    intro t i t' h
    rw [advanceLoop] at h
    by_cases h1 :
        t.key_predictions.getD i (KeyBytePrediction.normal 0) ≠ KeyBytePrediction.strong
    · rw [if_pos h1] at h
      exact ih t (i + 1) t' h
    · rw [if_neg h1] at h
      dsimp only at h
      by_cases h2 : WepKey.LEN_40 ≤ i
      · rw [if_pos h2] at h
        by_cases h3 :
            i < ({ t with maybe_wep40 := false } : KeyTester).cur_l_idxs.getD i 0 + 1
        · rw [if_pos h3] at h
          obtain ⟨hp, hn⟩ := ih _ (i + 1) t' h
          exact ⟨hp, hn⟩
        · rw [if_neg h3] at h
          obtain rfl := (Option.some.inj h).symm
          exact ⟨rfl, rfl⟩
      · rw [if_neg h2] at h
        by_cases h3 : i < t.cur_l_idxs.getD i 0 + 1
        · rw [if_pos h3] at h
          obtain ⟨hp, hn⟩ := ih _ (i + 1) t' h
          exact ⟨hp, hn⟩
        · rw [if_neg h3] at h
          obtain rfl := (Option.some.inj h).symm
          exact ⟨rfl, rfl⟩

/-- `advance_to_next_key` never modifies the frozen prediction snapshot or
the key count (whatever boolean it returns). -/
theorem advance_frame (t t' : KeyTester) (b : Bool)
    (h : t.advance_to_next_key = some (t', b)) :
    t'.key_predictions = t.key_predictions ∧ t'.num_keys = t.num_keys := by
  rw [KeyTester.advance_to_next_key] at h
  by_cases he : t.is_at_end
  · rw [if_pos he] at h
    obtain rfl : t = t' := congrArg Prod.fst (Option.some.inj h)
    exact ⟨rfl, rfl⟩
  · rw [if_neg he] at h
    rcases hl : advanceLoop t 0 WepKey.LEN_104 with _ | t2
    · rw [hl] at h
      exact absurd h (by simp)
    · rw [hl] at h
      have h2 : (some (t2, true) : Option (KeyTester × Bool)) = some (t', b) := h
      obtain rfl : t2 = t' := congrArg Prod.fst (Option.some.inj h2)
      exact advanceLoop_frame _ t 0 _ hl

theorem emod256_toNat_lt (a : Int) : (a.emod 256).toNat < 256 := by
  have h1 : 0 ≤ a.emod 256 := Int.emod_nonneg a (by norm_num)
  have h2 : a.emod 256 < 256 := Int.emod_lt_of_pos a (by norm_num)
  omega

theorem sigmaVoteIdxsGo_length (s3 sinv3 ks : List Nat) (j3 : Nat) :
    ∀ (cnt i s3sum : Nat), (sigmaVoteIdxsGo s3 sinv3 ks j3 cnt i s3sum).length = cnt := by
  intro cnt
  induction cnt with
  | zero => intro i s3sum; rfl
  | succ n ih => intro i s3sum; simp only [sigmaVoteIdxsGo, List.length_cons, ih]

theorem sigmaVoteIdxsGo_lt (s3 sinv3 ks : List Nat) (j3 : Nat) :
    ∀ (cnt i s3sum : Nat), ∀ v ∈ sigmaVoteIdxsGo s3 sinv3 ks j3 cnt i s3sum, v < 256 := by
  intro cnt
  induction cnt with
  | zero => intro i s3sum v hv; simp [sigmaVoteIdxsGo] at hv
  | succ n ih =>
    intro i s3sum v hv
    rw [sigmaVoteIdxsGo, List.mem_cons] at hv
    rcases hv with hv | hv
    · exact hv ▸ emod256_toNat_lt _
    · exact ih (i + 1) _ v hv

theorem sum_set_incr (row : List Nat) :
    ∀ sg, sg < row.length → (row.set sg (row.getD sg 0 + 1)).sum = row.sum + 1 := by
  induction row with
  | nil => intro sg h; simp at h
  | cons x xs ih =>
    intro sg h
    cases sg with
    | zero => simp [List.getD_cons_zero]; omega
    | succ n =>
      rw [List.getD_cons_succ, List.set_cons_succ, List.sum_cons, List.sum_cons,
        ih n (by simpa using h)]
      omega

theorem getD_zipWith_set (f : List Nat → Nat → List Nat) :
    ∀ (rows : List (List Nat)) (sgs : List Nat) (k : Nat), k < rows.length → k < sgs.length →
      (List.zipWith f rows sgs).getD k [] = f (rows.getD k []) (sgs.getD k 0) := by
  intro rows
  induction rows with
  | nil => intro sgs k h1 _; simp at h1
  | cons r rs ih =>
    intro sgs k h1 h2
    cases sgs with
    | nil => simp at h2
    | cons s ss =>
      cases k with
      | zero => rfl
      | succ n =>
        rw [List.zipWith_cons_cons, List.getD_cons_succ, List.getD_cons_succ,
          List.getD_cons_succ]
        exact ih ss n (by simpa using h1) (by simpa using h2)

theorem sigmaVoteIdxs_length (s : KeystreamSample) : (sigmaVoteIdxs s).length = 13 := by
  unfold sigmaVoteIdxs
  exact sigmaVoteIdxsGo_length _ _ _ _ _ _ _

theorem sigmaVoteIdxs_lt (s : KeystreamSample) : ∀ v ∈ sigmaVoteIdxs s, v < 256 := by
  unfold sigmaVoteIdxs
  intro v hv
  exact sigmaVoteIdxsGo_lt _ _ _ _ _ _ _ v hv

theorem accept_sample_rowSum (p : KeyPredictor) (s : KeystreamSample)
    (hlen : p.sigma_votes.length = 13)
    (hrow : ∀ k, k < 13 → (p.sigma_votes.getD k []).length = 256) :
    (p.accept_sample s).sigma_votes.length = 13
    ∧ (∀ k, k < 13 → ((p.accept_sample s).sigma_votes.getD k []).length = 256)
    ∧ (p.accept_sample s).num_samples = p.num_samples + 1
    ∧ (∀ k, k < 13 → (p.accept_sample s).rowSum k = p.rowSum k + 1) := by
  have hsig : (sigmaVoteIdxs s).length = 13 := sigmaVoteIdxs_length s
  have hget : ∀ k, k < 13 →
      (p.accept_sample s).sigma_votes.getD k []
        = (p.sigma_votes.getD k []).set ((sigmaVoteIdxs s).getD k 0)
            ((p.sigma_votes.getD k []).getD ((sigmaVoteIdxs s).getD k 0) 0 + 1) := by
    intro k hk
    exact getD_zipWith_set _ p.sigma_votes (sigmaVoteIdxs s) k (hlen ▸ hk) (hsig ▸ hk)
  have hsg_lt : ∀ k, k < 13 → (sigmaVoteIdxs s).getD k 0 < 256 := by
    intro k hk
    have hk' : k < (sigmaVoteIdxs s).length := hsig ▸ hk
    rw [List.getD_eq_getElem _ _ hk']
    exact sigmaVoteIdxs_lt s _ (List.getElem_mem hk')
  refine ⟨?_, ?_, rfl, ?_⟩
  · simp [KeyPredictor.accept_sample, List.length_zipWith, hlen, hsig]
  · intro k hk
    rw [hget k hk, List.length_set]
    exact hrow k hk
  · intro k hk
    rw [KeyPredictor.rowSum, KeyPredictor.rowSum, hget k hk,
      sum_set_incr _ _ (by rw [hrow k hk]; exact hsg_lt k hk)]

theorem foldPredictor_invariant :
    ∀ (samples : List KeystreamSample) (p : KeyPredictor),
      p.sigma_votes.length = 13 →
      (∀ k, k < 13 → (p.sigma_votes.getD k []).length = 256) →
      (samples.foldl KeyPredictor.accept_sample p).sigma_votes.length = 13
      ∧ (∀ k, k < 13 →
          ((samples.foldl KeyPredictor.accept_sample p).sigma_votes.getD k []).length = 256)
      ∧ (samples.foldl KeyPredictor.accept_sample p).num_samples
          = p.num_samples + samples.length
      ∧ (∀ k, k < 13 →
          (samples.foldl KeyPredictor.accept_sample p).rowSum k
            = p.rowSum k + samples.length) := by
  intro samples
  induction samples with
  | nil => intro p h1 h2; exact ⟨h1, h2, by simp, fun k _ => by simp⟩
  | cons s rest ih =>
    intro p h1 h2
    obtain ⟨a1, a2, a3, a4⟩ := accept_sample_rowSum p s h1 h2
    obtain ⟨b1, b2, b3, b4⟩ := ih (p.accept_sample s) a1 a2
    refine ⟨b1, b2, ?_, ?_⟩
    · rw [List.foldl_cons, b3, a3, List.length_cons]; omega
    · intro k hk
      rw [List.foldl_cons, b4 k hk, a4 k hk, List.length_cons]
      omega

/-- C6: each `accept_sample` call adds exactly one vote to every one of the
13 rows of `sigma_votes` (one cell per key-byte index), so after any
sequence of samples fed to a fresh `KeyPredictor` every row of the vote
matrix sums to `num_samples`, the number of samples accepted. -/
theorem C6_sigma_votes_row_sums (samples : List KeystreamSample) (s : KeystreamSample)
    (i : Fin 13) :
    (foldPredictor samples).num_samples = samples.length
    ∧ (foldPredictor samples).rowSum i = samples.length
    ∧ ((foldPredictor samples).accept_sample s).rowSum i = samples.length + 1 := by
  have hnew1 : KeyPredictor.new.sigma_votes.length = 13 := List.length_replicate 13 _
  have hgetD : ∀ k, k < 13 → KeyPredictor.new.sigma_votes.getD k [] = List.replicate 256 0 := by
    intro k hk
    rw [show KeyPredictor.new.sigma_votes = List.replicate 13 (List.replicate 256 0) from rfl,
      List.getD_eq_getElem _ _ (by rw [List.length_replicate]; exact hk)]
    exact List.getElem_replicate _ _
  have hnew2 : ∀ k, k < 13 → (KeyPredictor.new.sigma_votes.getD k []).length = 256 := by
    intro k hk
    rw [hgetD k hk]
    exact List.length_replicate 256 0
  obtain ⟨f1, f2, f3, f4⟩ := foldPredictor_invariant samples KeyPredictor.new hnew1 hnew2
  have hnewsum : ∀ k, k < 13 → KeyPredictor.new.rowSum k = 0 := by
    intro k hk
    rw [KeyPredictor.rowSum, hgetD k hk, List.sum_replicate]
    exact smul_zero 256
  obtain ⟨_, _, _, a4⟩ := accept_sample_rowSum (foldPredictor samples) s f1 f2
  have hns : KeyPredictor.new.num_samples = 0 := rfl
  rw [hns, Nat.zero_add] at f3
  refine ⟨f3, ?_, ?_⟩
  · rw [foldPredictor, f4 i i.isLt, hnewsum i i.isLt, Nat.zero_add]
  · rw [a4 i i.isLt, foldPredictor, f4 i i.isLt, hnewsum i i.isLt, Nat.zero_add]

/-- C3 (witness): the all-normal predictions array `predsC3w` satisfies the
hypotheses, its product is the empty product 1, and `new` returns a tester
with `num_keys = 1`. -/
theorem C3_new_num_keys_amended_witness :
    predsC3w.length = 13
    ∧ predsC3w.getD 0 (KeyBytePrediction.normal 0) ≠ KeyBytePrediction.strong
    ∧ ((KeyTester.new predsC3w).map KeyTester.num_keys
          = some (∏ i ∈ Finset.range 13,
              (if predsC3w.getD i (KeyBytePrediction.normal 0) = KeyBytePrediction.strong then
                i else 1))
        ∧ 1 ≤ ∏ i ∈ Finset.range 13,
            (if predsC3w.getD i (KeyBytePrediction.normal 0) = KeyBytePrediction.strong then
              i else 1)) :=
  ⟨by decide, by decide, C3_new_num_keys_amended predsC3w (by decide) (by decide)⟩

set_option maxRecDepth 100000 in
set_option maxHeartbeats 4000000 in
/-- C4: the RC4 engine satisfies the published test vectors: key `"Key"`
(bytes 4B 65 79) yields the keystream prefix EB 9F 77 81 B7 34 CA 72 A7 19,
and key `"Secret"` (bytes 53 65 63 72 65 74) yields 04 D4 6B 05 3C A8 7B 59. -/
theorem C4_rc4_test_vectors :
    ((WepCrack.RC4Cipher.from_key [0x4B, 0x65, 0x79]).gen_keystream 10).2
      = [0xEB, 0x9F, 0x77, 0x81, 0xB7, 0x34, 0xCA, 0x72, 0xA7, 0x19]
    ∧ ((WepCrack.RC4Cipher.from_key [0x53, 0x65, 0x63, 0x72, 0x65, 0x74]).gen_keystream 8).2
      = [0x04, 0xD4, 0x6B, 0x05, 0x3C, 0xA8, 0x7B, 0x59] := by
  constructor <;> rfl

/-- C8: one `do_work` step never decreases the phase in the order
collection < testing < terminal (proved for every cracker state, which in
particular covers all reachable ones), and in the terminal phases
`FinishedSuccess` / `FinishedFailure` the step is a no-op returning the
state unchanged. -/
theorem C8_phase_monotonic (c : KeyCracker) (r : Option KeystreamSample) (c' : KeyCracker) :
    (c.doWork r = some c' → phaseRank c.phase ≤ phaseRank c'.phase)
    ∧ ((c.phase = KeyCrackerPhase.finishedSuccess ∨ c.phase = KeyCrackerPhase.finishedFailure) →
        c.doWork r = some c) := by
  obtain ⟨ph, dt, st, kp, buf, kt, ck⟩ := c
  constructor
  · intro h
    cases ph with
    | sampleCollection => exact Nat.zero_le _
    | candidateKeyTesting =>
      cases kt with
      | none => simp [KeyCracker.doWork] at h
      | some t =>
        rcases htc : t.test_current_key buf with _ | ores
        · simp [KeyCracker.doWork, htc] at h
        · rcases ores with _ | key
          · rcases hadv : t.advance_to_next_key with _ | p
            · simp [KeyCracker.doWork, htc, hadv] at h
            · rcases p with ⟨t2, b⟩
              cases b
              · simp [KeyCracker.doWork, htc, hadv] at h
                rw [← h]
                simp [phaseRank]
              · simp [KeyCracker.doWork, htc, hadv] at h
                rw [← h]
          · simp [KeyCracker.doWork, htc] at h
            rw [← h]
            simp [phaseRank]
    | finishedSuccess =>
      simp [KeyCracker.doWork] at h
      rw [← h]
    | finishedFailure =>
      simp [KeyCracker.doWork] at h
      rw [← h]
  · intro hp
    cases ph with
    | sampleCollection => rcases hp with hp | hp <;> simp at hp
    | candidateKeyTesting => rcases hp with hp | hp <;> simp at hp
    | finishedSuccess => rfl
    | finishedFailure => rfl

/-- C8 (witness): at the concrete terminal state `crackerFS` the step is
the identity, and the rank inequality holds for it. -/
theorem C8_phase_monotonic_witness :
    crackerFS.doWork none = some crackerFS
    ∧ phaseRank crackerFS.phase ≤ phaseRank crackerFS.phase :=
  ⟨(C8_phase_monotonic crackerFS none crackerFS).2 (Or.inl rfl),
   (C8_phase_monotonic crackerFS none crackerFS).1
     ((C8_phase_monotonic crackerFS none crackerFS).2 (Or.inl rfl))⟩

/-- C9: in any phase at or past `CandidateKeyTesting`, a `do_work` step
leaves the tester's frozen prediction snapshot (and its key count), the
predictor, the test buffer, the settings and the delay timer unchanged —
only `cur_l_idxs`, `cur_key_idx`, `maybe_wep40`, the phase and the cracked
key can change; and every `advance_to_next_key` call preserves the
snapshot and the key count. -/
theorem C9_predictions_frozen :
    (∀ (c : KeyCracker) (r : Option KeystreamSample) (c' : KeyCracker),
        c.phase ≠ KeyCrackerPhase.sampleCollection →
        c.doWork r = some c' →
        c'.key_tester.map KeyTester.key_predictions
            = c.key_tester.map KeyTester.key_predictions
        ∧ c'.key_tester.map KeyTester.num_keys = c.key_tester.map KeyTester.num_keys
        ∧ c'.key_predictor = c.key_predictor
        ∧ c'.test_sample_buf = c.test_sample_buf
        ∧ c'.settings = c.settings
        ∧ c'.delay_timer = c.delay_timer)
    ∧ (∀ (t t' : KeyTester) (b : Bool),
        t.advance_to_next_key = some (t', b) →
        t'.key_predictions = t.key_predictions ∧ t'.num_keys = t.num_keys) := by
  constructor
  · intro c r c' hph h
    obtain ⟨ph, dt, st, kp, buf, kt, ck⟩ := c
    cases ph with
    | sampleCollection => exact absurd rfl hph
    | candidateKeyTesting =>
      cases kt with
      | none => simp [KeyCracker.doWork] at h
      | some t =>
        rcases htc : t.test_current_key buf with _ | ores
        · simp [KeyCracker.doWork, htc] at h
        · rcases ores with _ | key
          · rcases hadv : t.advance_to_next_key with _ | p
            · simp [KeyCracker.doWork, htc, hadv] at h
            · rcases p with ⟨t2, b⟩
              obtain ⟨hpreds, hnum⟩ := advance_frame t t2 b hadv
              cases b
              · simp [KeyCracker.doWork, htc, hadv] at h
                rw [← h]
                simp [hpreds, hnum]
              · simp [KeyCracker.doWork, htc, hadv] at h
                rw [← h]
                simp [hpreds, hnum]
          · simp [KeyCracker.doWork, htc] at h
            rw [← h]
            simp
    | finishedSuccess =>
      simp [KeyCracker.doWork] at h
      rw [← h]
      simp
    | finishedFailure =>
      simp [KeyCracker.doWork] at h
      rw [← h]
      simp
  · intro t t' b h
    exact advance_frame t t' b h

set_option maxRecDepth 100000 in
set_option maxHeartbeats 4000000 in
/-- C9 (witness): a concrete step from the testing phase (the empty buffer
validates the first candidate, moving the phase to `FinishedSuccess`) under
which all frozen components are preserved, and a concrete successful
`advance_to_next_key` call preserving the snapshot. -/
theorem C9_predictions_frozen_witness :
    crackerCKT.phase ≠ KeyCrackerPhase.sampleCollection
    ∧ crackerCKT.doWork none = some crackerCKTres
    ∧ crackerCKTres.key_tester.map KeyTester.key_predictions
        = crackerCKT.key_tester.map KeyTester.key_predictions
    ∧ testerC1.advance_to_next_key = some (testerC1a, true)
    ∧ testerC1a.key_predictions = testerC1.key_predictions := by
  have hstep : crackerCKT.doWork none = some crackerCKTres := by rfl
  have hadv : testerC1.advance_to_next_key = some (testerC1a, true) := by decide
  refine ⟨by decide, hstep, ?_, hadv, ?_⟩
  · exact ((C9_predictions_frozen.1 crackerCKT none crackerCKTres (by decide) hstep)).1
  · exact (C9_predictions_frozen.2 testerC1 testerC1a true hadv).1

set_option maxRecDepth 100000 in
set_option maxHeartbeats 4000000 in
/-- C1 (code bug): with one strong byte at position 3 the tester has
`num_keys = 3`; the first two `advance_to_next_key` calls succeed, leaving
`cur_key_idx = num_keys - 1 = 2` exactly as the claim states, but the next
call PANICS (`unable to advance to next key`, modelled by `none`) instead
of returning `false`: `is_at_end` is still false (`cur_key_idx` never
reaches `num_keys`), so the odometer carries through every position and
falls out of the loop.  Consequently a `do_work` step in
`CandidateKeyTesting` at the last candidate (with a buffer that rejects
every key) aborts rather than transitioning to `FinishedFailure` — the
`FinishedFailure` branch guarded by `advance_to_next_key() == false` is
unreachable. -/
theorem C1_advance_exhaustion_panics :
    KeyTester.new predsC1 = some testerC1
    ∧ testerC1.num_keys = 3
    ∧ testerC1.advance_to_next_key = some (testerC1a, true)
    ∧ testerC1a.advance_to_next_key = some (testerC1b, true)
    ∧ testerC1b.cur_key_idx = testerC1.num_keys - 1
    ∧ testerC1b.is_at_end = false
    ∧ testerC1b.advance_to_next_key = none
    ∧ crackerC1.phase = KeyCrackerPhase.candidateKeyTesting
    ∧ crackerC1.doWork none = none := by
  refine ⟨by decide, rfl, by decide, by decide, rfl, rfl, by decide, rfl, by rfl⟩

theorem lastN_of_le (n : Nat) (l : List KeystreamSample) (h : l.length ≤ n) :
    lastN n l = l := by
  rw [lastN, Nat.sub_eq_zero_of_le h, List.drop_zero]

theorem lastN_cons_of_le (k : Nat) (x : KeystreamSample) (rest : List KeystreamSample)
    (h : k ≤ rest.length) : lastN k (x :: rest) = lastN k rest := by
  rw [lastN, lastN, List.length_cons,
    show rest.length + 1 - k = (rest.length - k) + 1 from by omega, List.drop_succ_cons]

theorem length_lastN (n : Nat) (l : List KeystreamSample) :
    (lastN n l).length = min n l.length := by
  rw [lastN, List.length_drop]
  omega

/-- The eviction loop terminates with the last `cap - 1` elements whenever
the capacity is positive. -/
theorem evictLoop_eq (cap : Nat) (hc : 1 ≤ cap) :
    ∀ q : List KeystreamSample, evictLoop cap q = some (lastN (cap - 1) q) := by
  intro q
  induction q with
  | nil =>
    rw [evictLoop, if_neg (by omega)]
    simp [lastN]
  | cons x rest ih =>
    rw [evictLoop]
    by_cases h : cap ≤ (x :: rest).length
    · rw [if_pos h, ih, lastN_cons_of_le _ _ _ (by simp at h; omega)]
    · rw [if_neg h, lastN_of_le _ _ (by simp at h ⊢; omega)]

/-- Re-assembling a suffix: keeping the last `c` of (last `k` of `q`, then
`m`) equals keeping the last `c` of (`q` then `m`), provided `k` plus the
appended length covers `c`. -/
theorem lastN_append_lastN (c k : Nat) (q m : List KeystreamSample)
    (h : c ≤ k + m.length) :
    lastN c (lastN k q ++ m) = lastN c (q ++ m) := by
  simp only [lastN, List.drop_append_eq_append_drop, List.drop_drop, List.length_append,
    List.length_drop]
  congr 2
  · omega
  · omega

theorem selEvery_length (p : Nat) (hp : 1 ≤ p) :
    ∀ (xs : List KeystreamSample) (r : Nat), r < p →
      (selEvery p r xs).length = (r + xs.length) / p := by
  intro xs
  induction xs with
  | nil =>
    intro r hr
    rw [selEvery, List.length_nil, Nat.div_eq_of_lt (by omega)]
  | cons x xs ih =>
    intro r hr
    rw [selEvery]
    by_cases hb : r + 1 < p
    · rw [if_pos hb, ih (r + 1) hb, List.length_cons]
      congr 1
      omega
    · rw [if_neg hb, List.length_cons, List.length_cons, ih 0 (by omega), Nat.zero_add,
        show r + (xs.length + 1) = p + xs.length from by omega, Nat.add_div_left _ (by omega)]

theorem selEvery_getElem (p : Nat) (hp : 1 ≤ p) :
    ∀ (xs : List KeystreamSample) (r : Nat), r < p → ∀ i : Nat,
      (selEvery p r xs)[i]? = xs[p - r - 1 + p * i]? := by
  intro xs
  induction xs with
  | nil => intro r hr i; rw [selEvery]; rfl
  | cons x xs ih =>
    intro r hr i
    rw [selEvery]
    by_cases hb : r + 1 < p
    · rw [if_pos hb, ih (r + 1) hb i,
        show p - r - 1 + p * i = (p - (r + 1) - 1 + p * i) + 1 from by omega,
        List.getElem?_cons_succ]
    · rw [if_neg hb]
      cases i with
      | zero =>
        rw [show p - r - 1 + p * 0 = 0 from by omega, List.getElem?_cons_zero,
          List.getElem?_cons_zero]
      | succ n =>
        rw [List.getElem?_cons_succ, ih 0 (by omega) n,
          show p - r - 1 + p * (n + 1) = (p - 0 - 1 + p * n) + 1 from by
            rw [Nat.mul_succ]; omega,
          List.getElem?_cons_succ]

/-- Running the collection loop from an arbitrary in-range buffer state:
the retained queue becomes the last `c` of the old queue followed by the
admitted samples, and the counter advances modulo the period. -/
theorem accept_all_spec (c p : Nat) (t : ℚ) (hc : 1 ≤ c) (hp : 1 ≤ p) :
    ∀ (xs q : List KeystreamSample) (r : Nat), r < p → q.length ≤ c →
      TestSampleBuffer.accept_all ⟨q, c, r, p, t⟩ xs
        = some ⟨lastN c (q ++ selEvery p r xs), c, (r + xs.length) % p, p, t⟩ := by
  intro xs
  induction xs with
  | nil =>
    intro q r hr hq
    rw [TestSampleBuffer.accept_all, selEvery, List.append_nil, lastN_of_le _ _ hq,
      List.length_nil, Nat.add_zero, Nat.mod_eq_of_lt hr]
  | cons x xs ih =>
    intro q r hr hq
    rw [TestSampleBuffer.accept_all, TestSampleBuffer.accept_sample]
    by_cases hb : r + 1 < p
    · rw [if_pos hb]
      rw [show selEvery p r (x :: xs) = selEvery p (r + 1) xs from by
        rw [selEvery, if_pos hb]]
      rw [show (⟨q, c, r, p, t⟩ : TestSampleBuffer).period_timer + 1 = r + 1 from rfl]
      rw [List.length_cons, show r + (xs.length + 1) = (r + 1) + xs.length from by omega]
      exact ih q (r + 1) hb hq
    · rw [if_neg hb]
      rw [show evictLoop (⟨q, c, r, p, t⟩ : TestSampleBuffer).buffer_size
            (⟨q, c, r, p, t⟩ : TestSampleBuffer).samples = some (lastN (c - 1) q) from
        evictLoop_eq c hc q]
      rw [show selEvery p r (x :: xs) = x :: selEvery p 0 xs from by
        rw [selEvery, if_neg hb]]
      have hq' : (lastN (c - 1) q ++ [x]).length ≤ c := by
        rw [List.length_append, length_lastN, List.length_cons, List.length_nil]
        omega
      have hmain := ih (lastN (c - 1) q ++ [x]) 0 (by omega) hq'
      have hfix : lastN c (lastN (c - 1) q ++ [x] ++ selEvery p 0 xs)
          = lastN c (q ++ x :: selEvery p 0 xs) := by
        rw [List.append_assoc, List.singleton_append,
          lastN_append_lastN c (c - 1) q (x :: selEvery p 0 xs) (by simp; omega)]
      have htimer : (0 + xs.length) % p = (r + (x :: xs).length) % p := by
        rw [List.length_cons, show r + (xs.length + 1) = p + xs.length from by omega,
          Nat.add_mod_left, Nat.zero_add]
      rw [← hfix, ← htimer]
      exact hmain

set_option maxRecDepth 100000 in
/-- C5 (counterexample): with capacity 0 (and period 1) the source's
eviction loop `while len >= buffer_size { pop_front }` never terminates
once the first sample is admitted (modelled by `accept_all` returning
`none`), and with period 0 the admission test `timer < period` is always
false, so every sample is retained (`1` retained sample where the claim's
`min(floor(n/p), c)` formula, read with `n/0 = 0`, predicts `0`). -/
theorem C5_counterexample :
    (TestSampleBuffer.new 0 1 1).accept_all [badSampleC1] = none
    ∧ ((TestSampleBuffer.new 1 0 1).accept_all [badSampleC1]).map
        (fun b => b.samples.length) = some 1
    ∧ (1 : Nat) / 0 = 0 :=
  ⟨rfl, rfl, rfl⟩

/-- C5 (amended): for capacity `c ≥ 1` and period `p ≥ 1`, after a fresh
buffer accepts any sequence `xs` of samples it retains exactly the most
recent `min(⌊n/p⌋, c)` of the samples at the 1-indexed positions
`p, 2p, 3p, …` in FIFO order (the retained queue is the `c`-suffix of that
periodic selection), and the period counter ends at `n mod p`. -/
theorem C5_accept_sample_amended (c p : Nat) (t : ℚ) (xs : List KeystreamSample)
    (hc : 1 ≤ c) (hp : 1 ≤ p) :
    (TestSampleBuffer.new c p t).accept_all xs
        = some
            { samples := lastN c (selEvery p 0 xs)
              buffer_size := c
              period_timer := xs.length % p
              sample_period := p
              test_threshold_fract := t }
    ∧ (selEvery p 0 xs).length = xs.length / p
    ∧ (lastN c (selEvery p 0 xs)).length = min (xs.length / p) c
    ∧ (∀ i : Nat, (selEvery p 0 xs)[i]? = xs[p * (i + 1) - 1]?) := by
  refine ⟨?_, ?_, ?_, ?_⟩
  · have h := accept_all_spec c p t hc hp xs [] 0 (by omega) (by simp)
    rw [List.nil_append, Nat.zero_add] at h
    exact h
  · rw [selEvery_length p hp xs 0 (by omega), Nat.zero_add]
  · rw [length_lastN, selEvery_length p hp xs 0 (by omega), Nat.zero_add, Nat.min_comm]
  · intro i
    rw [selEvery_getElem p hp xs 0 (by omega) i,
      show p - 0 - 1 + p * i = p * (i + 1) - 1 from by rw [Nat.mul_succ]; omega]

/-- C5 (witness): capacity 2, period 2, three samples: the buffer retains
the single sample at position 2, and the counter ends at `3 mod 2 = 1`. -/
theorem C5_accept_sample_amended_witness :
    (1 ≤ 2 ∧ 1 ≤ 2)
    ∧ (TestSampleBuffer.new 2 2 1).accept_all [badSampleC1, badSampleC1, badSampleC1]
        = some
            { samples := lastN 2 (selEvery 2 0 [badSampleC1, badSampleC1, badSampleC1])
              buffer_size := 2
              period_timer := [badSampleC1, badSampleC1, badSampleC1].length % 2
              sample_period := 2
              test_threshold_fract := 1 }
    ∧ (TestSampleBuffer.new 2 2 1).accept_all [badSampleC1, badSampleC1, badSampleC1]
        = some ⟨[badSampleC1], 2, 1, 2, 1⟩ :=
  ⟨⟨by decide, by decide⟩,
   (C5_accept_sample_amended 2 2 1 [badSampleC1, badSampleC1, badSampleC1]
      (by decide) (by decide)).1,
   by rfl⟩

/-- C7: the partial key schedule composes over concatenation of key
slices: scheduling `a` and then `b` reaches the same `(S, i, j)` state as
scheduling `a ++ b` in one call (under the source's precondition
`i + |a| + |b| ≤ 256`). -/
theorem C7_partial_keyschedule_append (c : RC4Cipher) (a b : List Nat)
    (h : c.i + a.length + b.length ≤ 256) :
    (c.do_partial_keyschedule a).do_partial_keyschedule b
      = c.do_partial_keyschedule (a ++ b) := by
  rw [RC4Cipher.do_partial_keyschedule, RC4Cipher.do_partial_keyschedule,
    RC4Cipher.do_partial_keyschedule, List.foldl_append]

/-- C7 (witness): the spec's concrete instance — scheduling
`[0x01, 0x02]` then `[0x03, 0x04]` from the initial state equals
scheduling `[0x01, 0x02, 0x03, 0x04]`. -/
theorem C7_partial_keyschedule_append_witness :
    RC4Cipher.init.i + [0x01, 0x02].length + [0x03, 0x04].length ≤ 256
    ∧ (RC4Cipher.init.do_partial_keyschedule [0x01, 0x02]).do_partial_keyschedule [0x03, 0x04]
        = RC4Cipher.init.do_partial_keyschedule ([0x01, 0x02] ++ [0x03, 0x04]) :=
  ⟨by decide,
   C7_partial_keyschedule_append RC4Cipher.init [0x01, 0x02] [0x03, 0x04] (by decide)⟩
